import Mathlib

/-!
Verification of the Mestre Parrilleros scraper (src/scraper.py) against its
natural-language specification.  The Python source is shallowly embedded:
pure helpers become Lean functions, the per-page / per-record loops become
structural recursions, external effects (browser navigation, DOM queries,
the PostgreSQL connection, the system clock, exception-raising library
calls) become explicit parameters.  Regular-expression operations from the
source are embedded by hand-derived executable semantics, documented at
each definition.
-/

set_option maxHeartbeats 1000000

/-- Character class of the Python regex `\s` restricted to ASCII: space,
tab, newline, carriage return, vertical tab, form feed.  (Unicode
whitespace is out of scope of this embedding.) -/
def isPySpace (c : Char) : Bool :=
  c = ' ' || c = '\t' || c = '\n' || c = '\r' || c = Char.ofNat 11 || c = Char.ofNat 12

/-- Character class `[\d.]` of the price regex, with `\d` restricted to
ASCII digits. -/
def isDigitDot (c : Char) : Bool :=
  c.isDigit || c = '.'

/-- One match attempt of the regex `R\$\s*R\$` at the head of the input,
returning the remainder after the match.  Because no whitespace character
is the literal `R`, the greedy `\s*` never has to backtrack: the match
succeeds exactly when the maximal whitespace run after the first `R$` is
followed by a second `R$`. -/
def matchRR (l : List Char) : Option (List Char) :=
  if l.take 2 = ['R', '$'] then
    let rest := (l.drop 2).dropWhile isPySpace
    if rest.take 2 = ['R', '$'] then some (rest.drop 2) else none
  else none

theorem length_dropWhile_le (p : Char → Bool) (l : List Char) :
    (l.dropWhile p).length ≤ l.length :=
  (List.dropWhile_sublist (l := l) p).length_le

theorem matchRR_length {l rest : List Char} (h : matchRR l = some rest) :
    rest.length < l.length := by
  unfold matchRR at h
  by_cases h1 : l.take 2 = ['R', '$']
  · rw [if_pos h1] at h
    by_cases h2 : ((l.drop 2).dropWhile isPySpace).take 2 = ['R', '$']
    · rw [if_pos h2] at h
      have hrest : rest = ((l.drop 2).dropWhile isPySpace).drop 2 := by
        cases h; rfl
      have hl2 : 2 ≤ l.length := by
        have := congrArg List.length h1
        simp [List.length_take] at this
        omega
      have hw : ((l.drop 2).dropWhile isPySpace).length ≤ l.length - 2 := by
        have hle := length_dropWhile_le isPySpace (l.drop 2)
        simpa [List.length_drop] using hle
      have := congrArg List.length hrest
      simp [List.length_drop] at this
      omega
    · rw [if_neg h2] at h
      exact absurd h (by simp)
  · rw [if_neg h1] at h
    exact absurd h (by simp)

/-- Fuel-indexed global substitution of `R\$\s*R\$` by `R$`, scanning
left to right and, as Python `re.sub` does, resuming the scan after the
text just substituted (the replacement itself is not rescanned). -/
def subRRFuel : Nat → List Char → List Char
  | _, [] => []
  | 0, l => l
  | fuel + 1, c :: cs =>
    match matchRR (c :: cs) with
    | some rest => 'R' :: '$' :: subRRFuel fuel rest
    | none => c :: subRRFuel fuel cs

theorem subRRFuel_congr :
    ∀ (f1 : Nat) (l : List Char) (f2 : Nat), l.length ≤ f1 → l.length ≤ f2 →
      subRRFuel f1 l = subRRFuel f2 l := by
  intro f1
  induction f1 with
  | zero =>
    intro l f2 h1 _
    have : l = [] := List.length_eq_zero.mp (Nat.le_zero.mp h1)
    subst this
    cases f2 <;> rfl
  | succ f ih =>
    intro l f2 h1 h2
    cases l with
    | nil => cases f2 <;> rfl
    | cons c cs =>
      have hlen : cs.length + 1 ≤ f2 := by simpa using h2
      obtain ⟨g, rfl⟩ : ∃ g, f2 = g + 1 := ⟨f2 - 1, by omega⟩
      show subRRFuel (f + 1) (c :: cs) = subRRFuel (g + 1) (c :: cs)
      simp only [subRRFuel]
      cases hm : matchRR (c :: cs) with
      | some rest =>
        have hr := matchRR_length hm
        simp only [List.length_cons] at h1 hlen hr
        show 'R' :: '$' :: subRRFuel f rest = 'R' :: '$' :: subRRFuel g rest
        rw [ih rest g (by omega) (by omega)]
      | none =>
        simp only [List.length_cons] at h1 hlen
        show c :: subRRFuel f cs = c :: subRRFuel g cs
        rw [ih cs g (by omega) (by omega)]

/-- Embedding of the source line
`preco_limpo = re.sub(r'R\$\s*R\$', 'R$', preco_str)`. -/
def subRR (l : List Char) : List Char :=
  subRRFuel l.length l

theorem subRR_nil : subRR [] = [] := rfl

theorem subRR_match {l rest : List Char} (h : matchRR l = some rest) :
    subRR l = 'R' :: '$' :: subRR rest := by
  cases l with
  | nil => simp [matchRR] at h
  | cons c cs =>
    show subRRFuel (cs.length + 1) (c :: cs) = 'R' :: '$' :: subRR rest
    simp only [subRRFuel, h]
    have hr := matchRR_length h
    simp at hr
    rw [subRRFuel_congr cs.length rest rest.length (by omega) (le_refl _)]
    rfl

theorem subRR_nomatch {c : Char} {cs : List Char} (h : matchRR (c :: cs) = none) :
    subRR (c :: cs) = c :: subRR cs := by
  show subRRFuel (cs.length + 1) (c :: cs) = c :: subRR cs
  simp only [subRRFuel, h]
  rfl

/-- Embedding of `re.sub(r'\s+', ' ', s)`: every maximal whitespace run is
replaced by a single space.  The flag records whether the previous
character belonged to a whitespace run. -/
def collapseAux : Bool → List Char → List Char
  | _, [] => []
  | prevSpace, c :: cs =>
    if isPySpace c then
      if prevSpace then collapseAux true cs
      else ' ' :: collapseAux true cs
    else c :: collapseAux false cs

def collapseWs (l : List Char) : List Char :=
  collapseAux false l

/-- Embedding of Python `str.strip()` over the same whitespace class. -/
def stripWs (l : List Char) : List Char :=
  ((l.dropWhile isPySpace).reverse.dropWhile isPySpace).reverse

/-- One match attempt of the regex `([\d.]+,\d{2})` anchored at the head
of the input, returning the matched group.  `[\d.]+` greedily takes the
maximal run of digits and dots; since a comma is not in that class, no
shorter prefix of the run can be followed by a comma, so the greedy
attempt is the only one. -/
def tryNum (l : List Char) : Option (List Char) :=
  match l with
  | [] => none
  | c :: _ =>
    if isDigitDot c then
      match l.dropWhile isDigitDot with
      | ',' :: d1 :: d2 :: _ =>
        if d1.isDigit && d2.isDigit then
          some (l.takeWhile isDigitDot ++ ',' :: d1 :: [d2])
        else none
      | _ => none
    else none

/-- Embedding of `re.search(r'([\d.]+,\d{2})', s)`: the leftmost position
at which the pattern matches yields the group. -/
def findNum : List Char → Option (List Char)
  | [] => none
  | c :: cs =>
    match tryNum (c :: cs) with
    | some g => some g
    | none => findNum cs

def digitVal (c : Char) : Nat :=
  c.toNat - '0'.toNat

def natOfDigits (l : List Char) : Nat :=
  l.foldl (fun n c => n * 10 + digitVal c) 0

/-- Embedding of `float(valor_str.replace('.', '').replace(',', '.'))` on
a group matched by `([\d.]+,\d{2})`: dropping the dots and the comma
leaves only digits, two of which are fractional, so the value is the
digit string read as a natural number divided by 100.  The Python binary
float is modelled as this exact decimal rational. -/
def valorDoGrupo (g : List Char) : ℚ :=
  (natOfDigits (g.filter Char.isDigit) : ℚ) / 100

structure PrecoInfo where
  texto : List Char
  valor : Option ℚ
deriving DecidableEq

/-- The cleaning pipeline of `limpar_preco`: collapse duplicated `R$`,
collapse whitespace runs, strip. -/
def limparTexto (l : List Char) : List Char :=
  stripWs (collapseWs (subRR l))

/-- Embedding of `limpar_preco` (src/scraper.py lines 85-110). -/
def limpar_preco (preco_str : List Char) : PrecoInfo :=
  if preco_str = [] ∨ preco_str = ("Consultar").toList then
    { texto := ("Consultar").toList, valor := none }
  else
    match findNum (limparTexto preco_str) with
    | some g => { texto := limparTexto preco_str, valor := some (valorDoGrupo g) }
    | none => { texto := limparTexto preco_str, valor := none }

/-- Occurrences of the two-character currency marker `R$` in a string,
counted at every position. -/
def countRS : List Char → Nat
  | [] => 0
  | c :: cs => (if c = 'R' ∧ cs.head? = some '$' then 1 else 0) + countRS cs

theorem limpar_preco_eval_some {s g : List Char}
    (hs : ¬(s = [] ∨ s = ("Consultar").toList))
    (hg : findNum (limparTexto s) = some g) :
    limpar_preco s = { texto := limparTexto s, valor := some (valorDoGrupo g) } := by
  unfold limpar_preco
  rw [if_neg hs, hg]

theorem limpar_preco_texto {s : List Char}
    (hs : ¬(s = [] ∨ s = ("Consultar").toList)) :
    (limpar_preco s).texto = limparTexto s := by
  unfold limpar_preco
  rw [if_neg hs]
  cases findNum (limparTexto s) <;> rfl

theorem isPySpace_ne_R {c : Char} (h : isPySpace c = true) : c ≠ 'R' := by
  intro hc
  subst hc
  simp [isPySpace] at h

theorem isPySpace_ne_dollar {c : Char} (h : isPySpace c = true) : c ≠ '$' := by
  intro hc
  subst hc
  simp [isPySpace] at h

theorem dropWhile_append_all {w t : List Char} (hw : ∀ c ∈ w, isPySpace c) :
    (w ++ t).dropWhile isPySpace = t.dropWhile isPySpace := by
  induction w with
  | nil => rfl
  | cons a w ih =>
    have ha : isPySpace a := hw a (by simp)
    simp only [List.cons_append, List.dropWhile_cons, ha, if_true]
    exact ih fun c hc => hw c (by simp [hc])

theorem matchRR_duplicado {w rest : List Char} (hw : ∀ c ∈ w, isPySpace c) :
    matchRR ('R' :: '$' :: (w ++ 'R' :: '$' :: rest)) = some rest := by
  unfold matchRR
  rw [if_pos (by simp)]
  have hdrop : ((('R' :: '$' :: (w ++ 'R' :: '$' :: rest)).drop 2).dropWhile isPySpace)
      = 'R' :: '$' :: rest := by
    show ((w ++ 'R' :: '$' :: rest).dropWhile isPySpace) = 'R' :: '$' :: rest
    rw [dropWhile_append_all hw]
    rw [List.dropWhile_cons_of_neg (by simp [isPySpace])]
  rw [hdrop]
  show (if List.take 2 ('R' :: '$' :: rest) = ['R', '$'] then
      some (List.drop 2 ('R' :: '$' :: rest)) else none) = some rest
  rw [if_pos (by simp)]
  simp

theorem matchRR_head {c : Char} {cs r : List Char} (h : matchRR (c :: cs) = some r) :
    c = 'R' ∧ cs.head? = some '$' := by
  unfold matchRR at h
  by_cases h1 : (c :: cs).take 2 = ['R', '$']
  · cases cs with
    | nil => simp [List.take] at h1
    | cons d ds =>
      simp [List.take] at h1
      exact ⟨h1.1, by simp [h1.2]⟩
  · rw [if_neg h1] at h
    exact absurd h (by simp)

theorem subRR_of_countRS_zero {l : List Char} (h : countRS l = 0) : subRR l = l := by
  induction l with
  | nil => rfl
  | cons c cs ih =>
    cases hm : matchRR (c :: cs) with
    | some r =>
      obtain ⟨hc, hd⟩ := matchRR_head hm
      unfold countRS at h
      rw [if_pos ⟨hc, hd⟩] at h
      omega
    | none =>
      unfold countRS at h
      have hcs : countRS cs = 0 := by omega
      rw [subRR_nomatch hm, ih hcs]

theorem countRS_espacos_iniciais {u t : List Char} (hu : ∀ c ∈ u, isPySpace c) :
    countRS (u ++ t) = countRS t := by
  induction u with
  | nil => rfl
  | cons a u ih =>
    have ha : isPySpace a := hu a (by simp)
    show (if a = 'R' ∧ (u ++ t).head? = some '$' then 1 else 0) + countRS (u ++ t) = countRS t
    rw [if_neg (fun hc => isPySpace_ne_R ha hc.1)]
    simpa using ih fun c hc => hu c (by simp [hc])

theorem countRS_space_suffix {t u : List Char} (hu : ∀ c ∈ u, isPySpace c) :
    countRS (t ++ u) = countRS t := by
  induction t with
  | nil =>
    show countRS ([] ++ u) = countRS []
    have h := countRS_espacos_iniciais (t := ([] : List Char)) hu
    simpa using h
  | cons c t ih =>
    show (if c = 'R' ∧ (t ++ u).head? = some '$' then 1 else 0) + countRS (t ++ u)
        = (if c = 'R' ∧ t.head? = some '$' then 1 else 0) + countRS t
    have hhead : ((t ++ u).head? = some '$') ↔ (t.head? = some '$') := by
      cases t with
      | nil =>
        cases u with
        | nil => simp
        | cons d ds =>
          have hd : isPySpace d := hu d (by simp)
          simp only [List.nil_append, List.head?_cons, List.head?_nil]
          constructor
          · intro hh
            exact absurd (Option.some.inj hh) (isPySpace_ne_dollar hd)
          · intro hh
            simp at hh
      | cons e es => simp
    rw [ih, if_congr (and_congr_right fun _ => hhead) rfl rfl]

theorem countRS_collapseAux (l : List Char) : ∀ b, countRS (collapseAux b l) = countRS l := by
  induction l with
  | nil => intro b; rfl
  | cons c cs ih =>
    intro b
    by_cases hc : isPySpace c
    · have hne : ¬(c = 'R' ∧ cs.head? = some '$') := fun hp => isPySpace_ne_R hc hp.1
      show countRS (if isPySpace c then _ else _) = _
      rw [if_pos hc]
      cases b with
      | true =>
        show countRS (collapseAux true cs) = countRS (c :: cs)
        rw [ih true]
        show countRS cs = (if c = 'R' ∧ cs.head? = some '$' then 1 else 0) + countRS cs
        rw [if_neg hne]
        simp
      | false =>
        show countRS (' ' :: collapseAux true cs) = countRS (c :: cs)
        show (if ' ' = 'R' ∧ (collapseAux true cs).head? = some '$' then 1 else 0)
            + countRS (collapseAux true cs)
            = (if c = 'R' ∧ cs.head? = some '$' then 1 else 0) + countRS cs
        rw [if_neg (by simp), if_neg hne, ih true]
    · show countRS (if isPySpace c then _ else _) = _
      rw [if_neg hc]
      show (if c = 'R' ∧ (collapseAux false cs).head? = some '$' then 1 else 0)
          + countRS (collapseAux false cs)
          = (if c = 'R' ∧ cs.head? = some '$' then 1 else 0) + countRS cs
      have hhead : ((collapseAux false cs).head? = some '$') ↔ (cs.head? = some '$') := by
        cases cs with
        | nil => simp [collapseAux]
        | cons d ds =>
          by_cases hd : isPySpace d
          · show ((if isPySpace d then _ else _) : List Char).head? = some '$' ↔ _
            rw [if_pos hd]
            simp only [List.head?_cons]
            constructor
            · intro hh
              simp at hh
            · intro hh
              exact absurd (Option.some.inj hh) (isPySpace_ne_dollar hd)
          · show ((if isPySpace d then _ else _) : List Char).head? = some '$' ↔ _
            rw [if_neg hd]
            simp
      rw [ih false, if_congr (and_congr_right fun _ => hhead) rfl rfl]

theorem countRS_collapseWs (l : List Char) : countRS (collapseWs l) = countRS l :=
  countRS_collapseAux l false

theorem mem_takeWhile_space {l : List Char} :
    ∀ c ∈ l.takeWhile isPySpace, isPySpace c := by
  intro c hc
  exact List.mem_takeWhile_imp hc

theorem countRS_dropWhile (l : List Char) :
    countRS (l.dropWhile isPySpace) = countRS l := by
  conv_rhs => rw [← List.takeWhile_append_dropWhile (p := isPySpace) (l := l)]
  rw [countRS_espacos_iniciais mem_takeWhile_space]

theorem countRS_stripWs (l : List Char) : countRS (stripWs l) = countRS l := by
  unfold stripWs
  have h1 : countRS ((l.dropWhile isPySpace).reverse.dropWhile isPySpace).reverse
      = countRS (l.dropWhile isPySpace) := by
    set r := (l.dropWhile isPySpace).reverse with hr
    have hsplit : r = r.takeWhile isPySpace ++ r.dropWhile isPySpace :=
      (List.takeWhile_append_dropWhile (p := isPySpace) (l := r)).symm
    have : countRS ((r.dropWhile isPySpace).reverse ++ (r.takeWhile isPySpace).reverse)
        = countRS (r.dropWhile isPySpace).reverse := by
      refine countRS_space_suffix ?_
      intro c hc
      exact mem_takeWhile_space c (List.mem_reverse.mp hc)
    calc countRS (r.dropWhile isPySpace).reverse
        = countRS ((r.dropWhile isPySpace).reverse ++ (r.takeWhile isPySpace).reverse) :=
          this.symm
      _ = countRS r.reverse := by rw [← List.reverse_append, ← hsplit]
      _ = countRS (l.dropWhile isPySpace) := by rw [hr, List.reverse_reverse]
  rw [h1, countRS_dropWhile]

/-- C7 counterexample: the code returns the sentinel text `Consultar`
unchanged, not the English rendering `Consult price` the claim names, so
`parse("Consultar")` does not equal the pair with text `Consult price`. -/
theorem limpar_preco_sentinela_contraexemplo :
    limpar_preco (("Consultar").toList) = { texto := ("Consultar").toList, valor := none } ∧
    ("Consultar").toList ≠ ("Consult price").toList := by
  exact ⟨by decide, by decide⟩

/-- C7 (amended): the price parser satisfies the specified examples with
the sentinel text being the source literal `Consultar`:
`parse("R$ R$ 1.510,40")` returns text `R$ 1.510,40` and value `1510.40`,
and both `parse("Consultar")` and `parse("")` return text `Consultar`
with a null value. -/
theorem limpar_preco_exemplos :
    limpar_preco (("R$ R$ 1.510,40").toList)
      = { texto := ("R$ 1.510,40").toList, valor := some ((151040 : ℚ) / 100) } ∧
    limpar_preco (("Consultar").toList) = { texto := ("Consultar").toList, valor := none } ∧
    limpar_preco [] = { texto := ("Consultar").toList, valor := none } := by
  refine ⟨?_, by decide, by decide⟩
  rw [limpar_preco_eval_some (s := ("R$ R$ 1.510,40").toList)
    (g := ("1.510,40").toList) (by decide) (by decide)]
  have ht : limparTexto (("R$ R$ 1.510,40").toList) = ("R$ 1.510,40").toList := by decide
  have hv : natOfDigits ((("1.510,40").toList).filter Char.isDigit) = 151040 := by decide
  rw [ht]
  unfold valorDoGrupo
  rw [hv]
  norm_num

/-- C8: for every input the parser returns a total result whose value is
either null or a non-negative decimal with exactly two fractional digits
(an integer number of hundredths), and absence of a numeric substring
yields the cleaned text with a null value. -/
theorem limpar_preco_seguro (s : List Char) :
    ((limpar_preco s).valor = none ∨
      ∃ n : ℕ, (limpar_preco s).valor = some ((n : ℚ) / 100) ∧ 0 ≤ ((n : ℚ) / 100)) ∧
    (findNum (limparTexto s) = none → (limpar_preco s).valor = none) := by
  constructor
  · unfold limpar_preco
    split
    · exact Or.inl rfl
    · cases hg : findNum (limparTexto s) with
      | none => exact Or.inl rfl
      | some g =>
        refine Or.inr ⟨natOfDigits (g.filter Char.isDigit), rfl, ?_⟩
        positivity
  · intro h
    unfold limpar_preco
    split
    · rfl
    · rw [h]

/-- C8 witness: the theorem applied to the concrete digit-free input
`abc`, discharging the no-numeric-substring hypothesis. -/
theorem limpar_preco_seguro_aplicacao :
    (limpar_preco (("abc").toList)).valor = none :=
  (limpar_preco_seguro (("abc").toList)).2 (by decide)

/-- C9 counterexample: an input beginning with three repetitions of the
currency symbol keeps two of them (Python re.sub resumes scanning after
the replaced text), refuting the claim for two-or-more repetitions. -/
theorem limpar_preco_tres_simbolos :
    (limpar_preco (("R$ R$ R$ 1,00").toList)).texto = ("R$ R$ 1,00").toList ∧
    countRS ((limpar_preco (("R$ R$ R$ 1,00").toList)).texto) = 2 := by
  exact ⟨by decide, by decide⟩

/-- C9 (amended): for every input beginning with exactly two repetitions
of the currency symbol separated by optional whitespace, whose remainder
contains no further occurrence of the symbol, the returned text carries
the symbol exactly once and is the whitespace-collapsed, stripped
cleaning of the deduplicated text. -/
theorem limpar_preco_prefixo_duplicado (w rest : List Char)
    (hw : ∀ c ∈ w, isPySpace c) (hrest : countRS rest = 0) :
    countRS ((limpar_preco ('R' :: '$' :: (w ++ 'R' :: '$' :: rest))).texto) = 1 ∧
    (limpar_preco ('R' :: '$' :: (w ++ 'R' :: '$' :: rest))).texto
      = stripWs (collapseWs ('R' :: '$' :: rest)) := by
  have hs : ¬(('R' :: '$' :: (w ++ 'R' :: '$' :: rest)) = [] ∨
      ('R' :: '$' :: (w ++ 'R' :: '$' :: rest)) = ("Consultar").toList) := by
    rintro (h | h) <;> simp [String.toList] at h
  have hsub : subRR ('R' :: '$' :: (w ++ 'R' :: '$' :: rest)) = 'R' :: '$' :: rest := by
    rw [subRR_match (matchRR_duplicado hw), subRR_of_countRS_zero hrest]
  have htexto : (limpar_preco ('R' :: '$' :: (w ++ 'R' :: '$' :: rest))).texto
      = stripWs (collapseWs ('R' :: '$' :: rest)) := by
    rw [limpar_preco_texto hs]
    unfold limparTexto
    rw [hsub]
  refine ⟨?_, htexto⟩
  rw [htexto, countRS_stripWs, countRS_collapseWs]
  show (if 'R' = 'R' ∧ ('$' :: rest).head? = some '$' then 1 else 0)
      + ((if '$' = 'R' ∧ rest.head? = some '$' then 1 else 0) + countRS rest) = 1
  rw [if_pos (by simp), if_neg (by simp), hrest]

/-- C9 witness: the amended theorem applied to the concrete input
`R$ R$ 1.510,40`, discharging both hypotheses. -/
theorem limpar_preco_prefixo_duplicado_aplicacao :
    countRS ((limpar_preco ('R' :: '$' :: ([' '] ++ 'R' :: '$' :: (" 1.510,40").toList))).texto)
      = 1 :=
  (limpar_preco_prefixo_duplicado [' '] ((" 1.510,40").toList)
    (by decide) (by decide)).1

/-!
Data model: the product dictionary built by the in-page extraction script
and enriched by the Python post-processing, and the DOM listing element
the script reads.  Optional DOM pieces are `Option`-valued; `falha` models
a per-element exception caught by the script's try/catch.
-/

structure ProdutoBruto where
  id : String
  sku : String
  nome : String
  preco : String
  imagem : String
  link : String
  metodo_extracao : String
deriving DecidableEq

structure Produto where
  id : String
  sku : String
  nome : String
  preco : String
  imagem : String
  link : String
  metodo_extracao : String
  categoria : String
  preco_texto : String
  preco_valor : Option ℚ
  data_scraping : String
  status : String
  fonte : String
deriving DecidableEq

structure ElementoDom where
  falha : Bool
  nome : String
  link : String
  precoVenda : Option String
  precoParcelado : Option String
  imagemSrc : Option String
  imagemDataSrc : Option String
  datasetId : Option String
  classeProdId : Option String
  sku : String
deriving DecidableEq

/-- JavaScript `a || b` on strings read from the DOM: the empty string is
falsy, so it falls through to the alternative. -/
def jsOr (a : Option String) (b : String) : String :=
  match a with
  | some s => if s = "" then b else s
  | none => b

/-- The price text assembled by the extraction script: the sale-price
element prefixed with `R$ `, else the installment-price element, else
empty. -/
def precoDoElemento (el : ElementoDom) : String :=
  match el.precoVenda with
  | some t => "R$ " ++ t
  | none =>
    match el.precoParcelado with
    | some t => t
    | none => ""

/-- One iteration of the extraction script's forEach body: a caught
exception or a candidate missing name or link yields nothing; otherwise
the raw product dictionary is pushed. -/
def extrairElemento (el : ElementoDom) : Option ProdutoBruto :=
  if el.falha = true then none
  else if el.nome ≠ "" ∧ el.link ≠ "" then
    some { id := jsOr el.datasetId (jsOr el.classeProdId ""),
           sku := el.sku,
           nome := el.nome,
           preco := if precoDoElemento el = "" then "Consultar" else precoDoElemento el,
           imagem := jsOr el.imagemSrc (jsOr el.imagemDataSrc ""),
           link := el.link,
           metodo_extracao := ".listagem-item" }
  else none

/-- The Python post-processing loop of `extrair_produtos_pagina`: attach
the category, run the price cleaner, stamp the scraping timestamp and the
default status.  `fonte` is attached later by the category walker, so it
starts empty (matching `produto.get('fonte', '')` at persistence time). -/
def enriquecer (categoria_nome : String) (timestamp : String) (b : ProdutoBruto) : Produto :=
  { id := b.id, sku := b.sku, nome := b.nome, preco := b.preco, imagem := b.imagem,
    link := b.link, metodo_extracao := b.metodo_extracao,
    categoria := categoria_nome,
    preco_texto := (limpar_preco b.preco.toList).texto.asString,
    preco_valor := (limpar_preco b.preco.toList).valor,
    data_scraping := timestamp, status := "Disponível", fonte := "" }

/-- Embedding of `extrair_produtos_pagina` (src/scraper.py lines
142-211): the rendered DOM snapshot is the list of listing elements, the
clock is the timestamp parameter. -/
def extrair_produtos_pagina (elementos : List ElementoDom)
    (categoria_nome timestamp : String) : List Produto :=
  (elementos.filterMap extrairElemento).map (enriquecer categoria_nome timestamp)

theorem extrairElemento_some {el : ElementoDom} {b : ProdutoBruto}
    (h : extrairElemento el = some b) :
    b.nome = el.nome ∧ b.link = el.link ∧ el.nome ≠ "" ∧ el.link ≠ "" := by
  unfold extrairElemento at h
  by_cases hf : el.falha = true
  · rw [if_pos hf] at h
    exact absurd h (by simp)
  · rw [if_neg hf] at h
    by_cases hc : el.nome ≠ "" ∧ el.link ≠ ""
    · rw [if_pos hc] at h
      cases h
      exact ⟨rfl, rfl, hc.1, hc.2⟩
    · rw [if_neg hc] at h
      exact absurd h (by simp)

/-- C5: extraction emits a record only when both name and link are
non-empty; a candidate lacking either field yields nothing; and a failure
while processing one element never disturbs the records of its
siblings. -/
theorem extracao_exige_nome_e_link (elementos l1 l2 : List ElementoDom)
    (el : ElementoDom) (cat ts : String) :
    (∀ p ∈ extrair_produtos_pagina elementos cat ts, p.nome ≠ "" ∧ p.link ≠ "") ∧
    (el.nome = "" ∨ el.link = "" → extrairElemento el = none) ∧
    (el.falha = true →
      extrair_produtos_pagina (l1 ++ el :: l2) cat ts
        = extrair_produtos_pagina (l1 ++ l2) cat ts) := by
  refine ⟨?_, ?_, ?_⟩
  · intro p hp
    unfold extrair_produtos_pagina at hp
    obtain ⟨b, hb, rfl⟩ := List.mem_map.mp hp
    obtain ⟨e, _, he⟩ := List.mem_filterMap.mp hb
    obtain ⟨hn, hl, hn2, hl2⟩ := extrairElemento_some he
    constructor
    · show b.nome ≠ ""
      rw [hn]; exact hn2
    · show b.link ≠ ""
      rw [hl]; exact hl2
  · intro hmiss
    unfold extrairElemento
    by_cases hf : el.falha = true
    · rw [if_pos hf]
    · rw [if_neg hf, if_neg]
      intro hc
      rcases hmiss with h | h
      · exact hc.1 h
      · exact hc.2 h
  · intro hf
    have hnone : extrairElemento el = none := by
      unfold extrairElemento
      rw [if_pos hf]
    unfold extrair_produtos_pagina
    rw [List.filterMap_append, List.filterMap_append, List.filterMap_cons_none hnone]

/-- Sample listing element with an empty link, used to witness C5. -/
def elementoSemLink : ElementoDom :=
  { falha := false, nome := "Parrilla 70", link := "", precoVenda := some "1.510,40",
    precoParcelado := none, imagemSrc := none, imagemDataSrc := none,
    datasetId := none, classeProdId := none, sku := "P70" }

/-- C5 witness: the theorem applied to a concrete candidate whose link is
empty, discharging the missing-field hypothesis. -/
theorem extracao_exige_nome_e_link_aplicacao :
    extrairElemento elementoSemLink = none :=
  (extracao_exige_nome_e_link [] [] [] elementoSemLink "" "").2.1 (Or.inr rfl)

/-!
Category walker (src/scraper.py lines 213-288).  The rendered site is
abstracted as the function `extrair` giving, for each page number, either
the records extracted there or a page-level exception; the pagination
detector's raw estimate and the HTTP status of the first navigation are
parameters.
-/

structure Categoria where
  nome : String
  url : String
  slug : String
deriving DecidableEq

/-- The URL visited for page `n` of a category, as recorded in `fonte`. -/
def pageUrl (urlBase : String) (n : Nat) : String :=
  if 1 < n then urlBase ++ "?pagina=" ++ toString n else urlBase

def setFonte (u : String) (p : Produto) : Produto :=
  { p with fonte := u }

/-- The page loop of `scrape_categoria_com_paginacao`, from page `n` with
`rem` page indices left before the detected, clamped total is exhausted.
A page-level exception is skipped; a page with zero records ends the walk
when `1 < n` and is merely skipped on page 1; otherwise the records are
tagged with the page URL and accumulated. -/
def walkFrom (extrair : Nat → Except String (List Produto)) (urlBase : String) :
    Nat → Nat → List Produto
  | _, 0 => []
  | n, rem + 1 =>
    match extrair n with
    | Except.error _ => walkFrom extrair urlBase (n + 1) rem
    | Except.ok ps =>
      if ps = [] then
        if 1 < n then [] else walkFrom extrair urlBase (n + 1) rem
      else (ps.map (setFonte (pageUrl urlBase n))) ++ walkFrom extrair urlBase (n + 1) rem

/-- Embedding of `scrape_categoria_com_paginacao`: a non-200 first
response aborts with an empty result; otherwise the detector's estimate
is floored at 1, clamped to the page ceiling, and the page loop runs from
page 1. -/
def scrape_categoria_com_paginacao (extrair : Nat → Except String (List Produto))
    (categoria : Categoria) (status detectado max_paginas : Nat) : List Produto :=
  if status ≠ 200 then []
  else walkFrom extrair categoria.url 1 (min (max 1 detectado) max_paginas)

theorem walkFrom_stop (extrair : Nat → Except String (List Produto)) (u : String)
    (ps : Nat → List Produto) (n : Nat)
    (hok : ∀ m, 1 ≤ m → m < n → extrair m = Except.ok (ps m))
    (hne : ∀ m, 1 < m → m < n → ps m ≠ [])
    (hstop : extrair n = Except.ok []) (hn1 : 1 < n) :
    ∀ rem k, 1 ≤ k → k ≤ n → n < k + rem →
      walkFrom extrair u k rem
        = ((List.range' k (n - k)).map fun m => (ps m).map (setFonte (pageUrl u m))).flatten := by
  intro rem
  induction rem with
  | zero =>
    intro k _ h2 h3
    omega
  | succ rem ih =>
    intro k h1 h2 h3
    by_cases hk : k = n
    · subst hk
      have hz : walkFrom extrair u k (rem + 1) = [] := by
        simp only [walkFrom, hstop]
        simp [hn1]
      rw [hz]
      simp
    · have hkn : k < n := lt_of_le_of_ne h2 hk
      have hok_k : extrair k = Except.ok (ps k) := hok k h1 hkn
      have hrange : List.range' k (n - k) = k :: List.range' (k + 1) (n - (k + 1)) := by
        have hsub : n - k = (n - (k + 1)) + 1 := by omega
        rw [hsub, List.range'_succ]
      by_cases hpk : ps k = []
      · have hk1 : ¬(1 < k) := fun h => hne k h hkn hpk
        have heq : walkFrom extrair u k (rem + 1) = walkFrom extrair u (k + 1) rem := by
          simp only [walkFrom, hok_k]
          rw [if_pos hpk, if_neg hk1]
        rw [heq, ih (k + 1) (by omega) (by omega) (by omega), hrange]
        simp [hpk]
      · have heq : walkFrom extrair u k (rem + 1)
            = (ps k).map (setFonte (pageUrl u k)) ++ walkFrom extrair u (k + 1) rem := by
          simp only [walkFrom, hok_k]
          rw [if_neg hpk]
        rw [heq, ih (k + 1) (by omega) (by omega) (by omega), hrange]
        simp

/-- C2: when some page `n > 1` within the detected, clamped page count
yields zero records (all earlier pages succeeding, pages `2..n-1`
non-empty), the walk stops at `n` and the category's final record list is
the concatenation of the tagged records of pages `1..n-1`; page 1 is
allowed to be empty without stopping the walk. -/
theorem categoria_para_na_pagina_vazia (extrair : Nat → Except String (List Produto))
    (categoria : Categoria) (detectado max_paginas n : Nat) (ps : Nat → List Produto)
    (hn1 : 1 < n) (hn2 : n ≤ min (max 1 detectado) max_paginas)
    (hok : ∀ m, 1 ≤ m → m < n → extrair m = Except.ok (ps m))
    (hne : ∀ m, 1 < m → m < n → ps m ≠ [])
    (hstop : extrair n = Except.ok []) :
    scrape_categoria_com_paginacao extrair categoria 200 detectado max_paginas
      = ((List.range' 1 (n - 1)).map
          fun m => (ps m).map (setFonte (pageUrl categoria.url m))).flatten := by
  unfold scrape_categoria_com_paginacao
  rw [if_neg (by simp)]
  exact walkFrom_stop extrair categoria.url ps n hok hne hstop hn1
    (min (max 1 detectado) max_paginas) 1 (le_refl 1) (by omega) (by omega)

/-- Sample product used by the walker and retry witnesses. -/
def produtoA : Produto :=
  { id := "1", sku := "A70", nome := "Parrilla 70", preco := "R$ 1,00", imagem := "",
    link := "http://loja/a", metodo_extracao := ".listagem-item", categoria := "Bancada",
    preco_texto := "R$ 1,00", preco_valor := none, data_scraping := "t",
    status := "Disponível", fonte := "" }

def catExemplo : Categoria :=
  { nome := "Bancada", url := "http://loja/bancada", slug := "bancada" }

def extrairExemplo : Nat → Except String (List Produto) :=
  fun m => if m = 2 then Except.ok [produtoA] else Except.ok []

def psExemplo : Nat → List Produto :=
  fun m => if m = 2 then [produtoA] else []

/-- C2 witness: a concrete walk where page 1 is empty (and not a stop
signal), page 2 has one record, and page 3 is empty, stopping the walk;
the result is the tagged records of pages 1..2. -/
theorem categoria_para_na_pagina_vazia_aplicacao :
    scrape_categoria_com_paginacao extrairExemplo catExemplo 200 5 20
      = ((List.range' 1 2).map
          fun m => ((psExemplo m).map (setFonte (pageUrl catExemplo.url m)))).flatten :=
  categoria_para_na_pagina_vazia extrairExemplo catExemplo 5 20 3 psExemplo
    (by omega) (by decide)
    (by intro m h1 h2; interval_cases m <;> rfl)
    (by intro m h1 h2; interval_cases m; simp [psExemplo])
    rfl

/-!
Retry orchestrator (src/scraper.py lines 557-586).  One crawl attempt is
the function `run`, returning either the full product list or the
exception that escaped the crawl.  The result records the outcome and the
list of backoff delays slept, in order.
-/

/-- The attempt loop of `scrape_com_retry` from attempt `t` with `rem`
loop iterations left.  A non-empty result returns immediately; an empty
result or an exception sleeps `2 ^ t` and continues when attempts remain;
an exception on the final attempt is re-raised; falling off the loop
returns the empty list. -/
def retryAux (run : Nat → Except String (List Produto)) (maxT : Nat) :
    Nat → Nat → Except String (List Produto) × List Nat
  | _, 0 => (Except.ok [], [])
  | t, rem + 1 =>
    match run t with
    | Except.ok ps =>
      if ps ≠ [] then (Except.ok ps, [])
      else if t < maxT then
        ((retryAux run maxT (t + 1) rem).1, 2 ^ t :: (retryAux run maxT (t + 1) rem).2)
      else retryAux run maxT (t + 1) rem
    | Except.error e =>
      if t < maxT then
        ((retryAux run maxT (t + 1) rem).1, 2 ^ t :: (retryAux run maxT (t + 1) rem).2)
      else (Except.error e, [])

/-- Embedding of `scrape_com_retry`: attempts run from 1 to
`max_tentativas`. -/
def scrape_com_retry (run : Nat → Except String (List Produto)) (max_tentativas : Nat) :
    Except String (List Produto) × List Nat :=
  retryAux run max_tentativas 1 max_tentativas

theorem retryAux_primeiro_sucesso (run : Nat → Except String (List Produto))
    (maxT i : Nat) (ps : List Produto) (hps : ps ≠ [])
    (hsucc : run i = Except.ok ps) (hi : i ≤ maxT) :
    ∀ rem t, 1 ≤ t → t ≤ i → i < t + rem →
      (∀ m, t ≤ m → m < i → (∃ e, run m = Except.error e) ∨ run m = Except.ok []) →
      retryAux run maxT t rem
        = (Except.ok ps, (List.range' t (i - t)).map fun m => 2 ^ m) := by
  intro rem
  induction rem with
  | zero =>
    intro t _ h2 h3 _
    omega
  | succ rem ih =>
    intro t h1 h2 h3 hfail
    by_cases ht : t = i
    · subst ht
      have : retryAux run maxT t (rem + 1) = (Except.ok ps, []) := by
        simp only [retryAux, hsucc]
        rw [if_pos hps]
      rw [this]
      simp
    · have hti : t < i := lt_of_le_of_ne h2 ht
      have htm : t < maxT := lt_of_lt_of_le hti hi
      have hrange : List.range' t (i - t) = t :: List.range' (t + 1) (i - (t + 1)) := by
        have hsub : i - t = (i - (t + 1)) + 1 := by omega
        rw [hsub, List.range'_succ]
      have hrec : retryAux run maxT (t + 1) rem
          = (Except.ok ps, (List.range' (t + 1) (i - (t + 1))).map fun m => 2 ^ m) :=
        ih (t + 1) (by omega) (by omega) (by omega)
          (fun m hm1 hm2 => hfail m (by omega) hm2)
      rcases hfail t (le_refl t) hti with ⟨e, he⟩ | he
      · have : retryAux run maxT t (rem + 1)
            = ((retryAux run maxT (t + 1) rem).1, 2 ^ t :: (retryAux run maxT (t + 1) rem).2) := by
          simp only [retryAux, he]
          rw [if_pos htm]
        rw [this, hrec, hrange]
        simp
      · have : retryAux run maxT t (rem + 1)
            = ((retryAux run maxT (t + 1) rem).1, 2 ^ t :: (retryAux run maxT (t + 1) rem).2) := by
          simp only [retryAux, he]
          rw [if_neg (by simp), if_pos htm]
        rw [this, hrec, hrange]
        simp

/-- C4: the retry orchestrator returns the result of the first attempt
that completes without exception with at least one record; every earlier
attempt (each raising or returning zero records) is followed by a backoff
delay of exactly `2 ^ t` time units, so attempts `1..i-1` sleep
`2, 4, ..., 2 ^ (i-1)` before attempt `i` succeeds. -/
theorem retry_retorna_primeiro_sucesso (run : Nat → Except String (List Produto))
    (max_tentativas i : Nat) (ps : List Produto)
    (h1 : 1 ≤ i) (h2 : i ≤ max_tentativas)
    (hfail : ∀ m, 1 ≤ m → m < i → (∃ e, run m = Except.error e) ∨ run m = Except.ok [])
    (hsucc : run i = Except.ok ps) (hps : ps ≠ []) :
    scrape_com_retry run max_tentativas
      = (Except.ok ps, (List.range' 1 (i - 1)).map fun m => 2 ^ m) := by
  unfold scrape_com_retry
  exact retryAux_primeiro_sucesso run max_tentativas i ps hps hsucc h2
    max_tentativas 1 (le_refl 1) h1 (by omega) hfail

def runExemplo : Nat → Except String (List Produto) :=
  fun t => if t ≤ 2 then Except.error "timeout" else Except.ok [produtoA]

/-- C4 witness: with raises on attempts 1-2 and one record on attempt 3
(maxAttempts = 3), the orchestrator returns that record after sleeping
2 then 4 units. -/
theorem retry_retorna_primeiro_sucesso_aplicacao :
    scrape_com_retry runExemplo 3
      = (Except.ok [produtoA], (List.range' 1 2).map fun m => 2 ^ m) :=
  retry_retorna_primeiro_sucesso runExemplo 3 3 [produtoA]
    (by omega) (by omega)
    (by
      intro m hm1 hm2
      interval_cases m <;> exact Or.inl ⟨"timeout", rfl⟩)
    rfl (by simp)

def runBoom : Nat → Except String (List Produto) :=
  fun t => if t = 1 then Except.error "boom" else Except.ok []

/-- C3 counterexample: attempt 1 raises and attempt 2 (of maxAttempts =
2) returns zero records without raising; the run exhausts all attempts
with no success, yet the orchestrator returns the empty list instead of
re-raising the exception of attempt 1. -/
theorem retry_excecao_engolida :
    runBoom 1 = Except.error "boom" ∧
    scrape_com_retry runBoom 2 = (Except.ok [], [2]) := by
  exact ⟨rfl, rfl⟩

theorem retryAux_exaustao (run : Nat → Except String (List Produto)) (maxT : Nat) :
    ∀ rem t, 1 ≤ t → t ≤ maxT → t + rem = maxT + 1 →
      (∀ m, t ≤ m → m ≤ maxT → (∃ e, run m = Except.error e) ∨ run m = Except.ok []) →
      (retryAux run maxT t rem).1
        = (match run maxT with
           | Except.error e => Except.error e
           | Except.ok _ => Except.ok []) := by
  intro rem
  induction rem with
  | zero =>
    intro t _ h2 h3 _
    omega
  | succ rem ih =>
    intro t h1 h2 h3 hfail
    by_cases ht : t = maxT
    · subst ht
      have hrem : rem = 0 := by omega
      subst hrem
      rcases hfail t (le_refl t) (le_refl t) with ⟨e, he⟩ | he
      · simp only [retryAux, he]
        rw [if_neg (by omega)]
      · simp only [retryAux, he]
        rw [if_neg (by simp), if_neg (by omega)]
    · have htm : t < maxT := lt_of_le_of_ne h2 ht
      have hrec : (retryAux run maxT (t + 1) rem).1
          = (match run maxT with
             | Except.error e => Except.error e
             | Except.ok _ => Except.ok []) :=
        ih (t + 1) (by omega) (by omega) (by omega)
          (fun m hm1 hm2 => hfail m (by omega) hm2)
      rcases hfail t (le_refl t) (le_of_lt htm) with ⟨e, he⟩ | he
      · simp only [retryAux, he]
        rw [if_pos htm]
        exact hrec
      · simp only [retryAux, he]
        rw [if_neg (by simp), if_pos htm]
        exact hrec

/-- C3 (amended): when every attempt fails (raises or returns zero
records), the outcome is decided by the final attempt alone: if the final
attempt raised, that exception is re-raised; if the final attempt
returned zero records without raising, the empty list is returned — even
when earlier attempts raised. -/
theorem retry_exaustao (run : Nat → Except String (List Produto)) (max_tentativas : Nat)
    (h1 : 1 ≤ max_tentativas)
    (hfail : ∀ m, 1 ≤ m → m ≤ max_tentativas →
      (∃ e, run m = Except.error e) ∨ run m = Except.ok []) :
    (∀ e, run max_tentativas = Except.error e →
      (scrape_com_retry run max_tentativas).1 = Except.error e) ∧
    (run max_tentativas = Except.ok [] →
      (scrape_com_retry run max_tentativas).1 = Except.ok []) := by
  have hmain : (scrape_com_retry run max_tentativas).1
      = (match run max_tentativas with
         | Except.error e => Except.error e
         | Except.ok _ => Except.ok []) :=
    retryAux_exaustao run max_tentativas max_tentativas 1 (le_refl 1) h1 (by omega) hfail
  constructor
  · intro e he
    rw [hmain, he]
  · intro he
    rw [hmain, he]

/-- C3 witness: the amended theorem applied to a run whose single attempt
raises, discharging both hypotheses; the exception is re-raised. -/
theorem retry_exaustao_aplicacao :
    (scrape_com_retry (fun _ => Except.error "fatal") 1).1 = Except.error "fatal" :=
  (retry_exaustao (fun _ => Except.error "fatal") 1 (le_refl 1)
    (fun _ _ _ => Or.inl ⟨"fatal", rfl⟩)).1 "fatal" rfl

/-!
Persistence (src/scraper.py lines 383-541).  A stored row carries the
upsert columns plus the row-creation and row-update markers; the database
is the list of rows, unique on `link` in every state reachable through
the upsert.  `CURRENT_TIMESTAMP` is the parameter `now`; parsing of the
textual `data_scraping` timestamp (`datetime.fromisoformat` after the `Z`
replacement, an external library call that may raise) is the parameter
`parseTs`, with `none` modelling the raised `ValueError`; `commitOk`
models whether the end-of-batch commit (the body of the outer try)
completes or raises.
-/

structure Row where
  produto_id : String
  sku : String
  nome : String
  preco_texto : String
  preco_valor : Option ℚ
  imagem : String
  link : String
  categoria : String
  status : String
  fonte : String
  data_scraping : Nat
  criado_em : Nat
  atualizado_em : Nat
deriving DecidableEq

structure Stats where
  inseridos : Nat
  atualizados : Nat
  erros : Nat
deriving DecidableEq

/-- The row created by the INSERT arm of the upsert: both timestamp
markers are set to the current time. -/
def mkRow (p : Produto) (ts now : Nat) : Row :=
  { produto_id := p.id, sku := p.sku, nome := p.nome, preco_texto := p.preco_texto,
    preco_valor := p.preco_valor, imagem := p.imagem, link := p.link,
    categoria := p.categoria, status := p.status, fonte := p.fonte,
    data_scraping := ts, criado_em := now, atualizado_em := now }

/-- The DO UPDATE SET arm of the upsert: exactly the columns listed in
the SQL are overwritten and `atualizado_em` is refreshed; `link` and
`criado_em` are untouched. -/
def atualizarRow (r : Row) (p : Produto) (ts now : Nat) : Row :=
  { produto_id := p.id, sku := p.sku, nome := p.nome, preco_texto := p.preco_texto,
    preco_valor := p.preco_valor, imagem := p.imagem, link := r.link,
    categoria := p.categoria, status := p.status, fonte := p.fonte,
    data_scraping := ts, criado_em := r.criado_em, atualizado_em := now }

/-- The conflict arm applied across the table: rows sharing the incoming
link are updated, the rest untouched (unique on `link` makes this the
single conflicting row). -/
def atualizarDb (db : List Row) (p : Produto) (ts now : Nat) : List Row :=
  db.map fun x => if x.link = p.link then atualizarRow x p ts now else x

/-- One iteration of the per-record loop of `salvar_postgres`: `none` is
the caught per-record exception (timestamp parse failure); otherwise the
upsert runs and the flag reports `xmax = 0`, that is, whether the row was
freshly inserted. -/
def aplicar_produto (parseTs : String → Option Nat) (now : Nat) (db : List Row)
    (p : Produto) : Option (List Row × Bool) :=
  match parseTs p.data_scraping with
  | none => none
  | some ts =>
    if db.any (fun x => x.link == p.link) then some (atualizarDb db p ts now, false)
    else some (db ++ [mkRow p ts now], true)

/-- The per-record loop: each record independently increments exactly one
of the three counters, threading the table state left to right. -/
def processar (parseTs : String → Option Nat) (now : Nat) :
    List Produto → List Row → List Row × Stats
  | [], db => (db, { inseridos := 0, atualizados := 0, erros := 0 })
  | p :: ps, db =>
    match aplicar_produto parseTs now db p with
    | none =>
      ((processar parseTs now ps db).1,
       { inseridos := (processar parseTs now ps db).2.inseridos,
         atualizados := (processar parseTs now ps db).2.atualizados,
         erros := (processar parseTs now ps db).2.erros + 1 })
    | some (db2, true) =>
      ((processar parseTs now ps db2).1,
       { inseridos := (processar parseTs now ps db2).2.inseridos + 1,
         atualizados := (processar parseTs now ps db2).2.atualizados,
         erros := (processar parseTs now ps db2).2.erros })
    | some (db2, false) =>
      ((processar parseTs now ps db2).1,
       { inseridos := (processar parseTs now ps db2).2.inseridos,
         atualizados := (processar parseTs now ps db2).2.atualizados + 1,
         erros := (processar parseTs now ps db2).2.erros })

/-- Embedding of `salvar_postgres`: an empty batch returns zero counts,
an unavailable connection counts the whole batch as errors, a batch-level
exception (`commitOk = false`) likewise, and otherwise the per-record
loop runs and the batch commits once at the end. -/
def salvar_postgres (parseTs : String → Option Nat) (now : Nat) (produtos : List Produto)
    (conn : Option (List Row)) (commitOk : Bool) : Stats × Option (List Row) :=
  if produtos = [] then ({ inseridos := 0, atualizados := 0, erros := 0 }, conn)
  else
    match conn with
    | none => ({ inseridos := 0, atualizados := 0, erros := produtos.length }, none)
    | some db =>
      if commitOk then ((processar parseTs now produtos db).2,
        some (processar parseTs now produtos db).1)
      else ({ inseridos := 0, atualizados := 0, erros := produtos.length }, some db)

theorem aplicar_insert {parseTs : String → Option Nat} {now : Nat} {db : List Row}
    {p : Produto} {ts : Nat} (hts : parseTs p.data_scraping = some ts)
    (hfresh : ∀ x ∈ db, x.link ≠ p.link) :
    aplicar_produto parseTs now db p = some (db ++ [mkRow p ts now], true) := by
  have hnot : ¬(db.any (fun x => x.link == p.link) = true) := by
    simp only [List.any_eq_true, beq_iff_eq, not_exists]
    rintro x ⟨hx, hbeq⟩
    exact hfresh x hx hbeq
  simp only [aplicar_produto, hts]
  rw [if_neg hnot]

theorem map_atualizar_fresh {p : Produto} {ts now : Nat} :
    ∀ (l : List Row), (∀ x ∈ l, x.link ≠ p.link) →
      (l.map fun x => if x.link = p.link then atualizarRow x p ts now else x) = l := by
  intro l hl
  induction l with
  | nil => rfl
  | cons x xs ih =>
    simp only [List.map_cons]
    rw [if_neg (hl x (by simp)), ih fun y hy => hl y (by simp [hy])]

theorem aplicar_update {parseTs : String → Option Nat} {now : Nat}
    {dbPre dbPos : List Row} {r : Row} {p : Produto} {ts : Nat}
    (hts : parseTs p.data_scraping = some ts) (hr : r.link = p.link)
    (hpre : ∀ x ∈ dbPre, x.link ≠ p.link) (hpos : ∀ x ∈ dbPos, x.link ≠ p.link) :
    aplicar_produto parseTs now (dbPre ++ r :: dbPos) p
      = some (dbPre ++ atualizarRow r p ts now :: dbPos, false) := by
  have hany : (dbPre ++ r :: dbPos).any (fun x => x.link == p.link) = true := by
    rw [List.any_eq_true]
    exact ⟨r, by simp, by simp [hr]⟩
  simp only [aplicar_produto, hts]
  rw [if_pos hany]
  unfold atualizarDb
  rw [List.map_append, List.map_cons, if_pos hr, map_atualizar_fresh dbPre hpre,
    map_atualizar_fresh dbPos hpos]

theorem processar_um (parseTs : String → Option Nat) (now : Nat) (db : List Row)
    (p : Produto) :
    processar parseTs now [p] db
      = match aplicar_produto parseTs now db p with
        | none => (db, { inseridos := 0, atualizados := 0, erros := 1 })
        | some (db2, true) => (db2, { inseridos := 1, atualizados := 0, erros := 0 })
        | some (db2, false) => (db2, { inseridos := 0, atualizados := 1, erros := 0 }) := by
  cases hap : aplicar_produto parseTs now db p with
  | none => simp [processar, hap]
  | some pr =>
    cases pr with
    | mk db2 flag => cases flag <;> simp [processar, hap]

theorem salvar_nao_vazio (parseTs : String → Option Nat) (now : Nat)
    (produtos : List Produto) (db : List Row) (h : produtos ≠ []) :
    salvar_postgres parseTs now produtos (some db) true
      = ((processar parseTs now produtos db).2, some (processar parseTs now produtos db).1) := by
  unfold salvar_postgres
  rw [if_neg h]
  rfl

/-- C1: a record with an unseen link is inserted with both markers set to
the current time (counted in inserted); a record whose link is stored has
exactly the mutable columns overwritten and the update marker refreshed
while `link` and `criado_em` are preserved (counted in updated); and the
same record applied twice from a fresh state gives inserted = 1 then
updated = 1 with exactly one stored row for that link. -/
theorem salvar_upsert_idempotente (parseTs : String → Option Nat)
    (now1 now2 now3 : Nat) (db dbPre dbPos : List Row) (r : Row) (p : Produto) (ts : Nat)
    (hts : parseTs p.data_scraping = some ts)
    (hfresh : ∀ x ∈ db, x.link ≠ p.link)
    (hr : r.link = p.link)
    (hpre : ∀ x ∈ dbPre, x.link ≠ p.link) (hpos : ∀ x ∈ dbPos, x.link ≠ p.link) :
    salvar_postgres parseTs now1 [p] (some db) true
      = ({ inseridos := 1, atualizados := 0, erros := 0 }, some (db ++ [mkRow p ts now1])) ∧
    salvar_postgres parseTs now2 [p] (some (dbPre ++ r :: dbPos)) true
      = ({ inseridos := 0, atualizados := 1, erros := 0 },
         some (dbPre ++ atualizarRow r p ts now2 :: dbPos)) ∧
    (atualizarRow r p ts now2).link = r.link ∧
    (atualizarRow r p ts now2).criado_em = r.criado_em ∧
    (atualizarRow r p ts now2).atualizado_em = now2 ∧
    (atualizarRow r p ts now2).produto_id = p.id ∧
    (atualizarRow r p ts now2).sku = p.sku ∧
    (atualizarRow r p ts now2).nome = p.nome ∧
    (atualizarRow r p ts now2).preco_texto = p.preco_texto ∧
    (atualizarRow r p ts now2).preco_valor = p.preco_valor ∧
    (atualizarRow r p ts now2).imagem = p.imagem ∧
    (atualizarRow r p ts now2).categoria = p.categoria ∧
    (atualizarRow r p ts now2).status = p.status ∧
    (atualizarRow r p ts now2).fonte = p.fonte ∧
    (atualizarRow r p ts now2).data_scraping = ts ∧
    salvar_postgres parseTs now3 [p] (some (db ++ [mkRow p ts now1])) true
      = ({ inseridos := 0, atualizados := 1, erros := 0 },
         some (db ++ atualizarRow (mkRow p ts now1) p ts now3 :: [])) ∧
    ((db ++ atualizarRow (mkRow p ts now1) p ts now3 :: []).filter
        (fun x => x.link == p.link)).length = 1 := by
  have hins : salvar_postgres parseTs now1 [p] (some db) true
      = ({ inseridos := 1, atualizados := 0, erros := 0 }, some (db ++ [mkRow p ts now1])) := by
    rw [salvar_nao_vazio parseTs now1 [p] db (by simp), processar_um,
      aplicar_insert hts hfresh]
  have hupd : salvar_postgres parseTs now2 [p] (some (dbPre ++ r :: dbPos)) true
      = ({ inseridos := 0, atualizados := 1, erros := 0 },
         some (dbPre ++ atualizarRow r p ts now2 :: dbPos)) := by
    rw [salvar_nao_vazio parseTs now2 [p] (dbPre ++ r :: dbPos) (by simp), processar_um,
      aplicar_update hts hr hpre hpos]
  have hsegundo : salvar_postgres parseTs now3 [p] (some (db ++ [mkRow p ts now1])) true
      = ({ inseridos := 0, atualizados := 1, erros := 0 },
         some (db ++ atualizarRow (mkRow p ts now1) p ts now3 :: [])) := by
    rw [salvar_nao_vazio parseTs now3 [p] (db ++ [mkRow p ts now1]) (by simp), processar_um,
      aplicar_update hts rfl hfresh (by simp)]
  have hcount : ((db ++ atualizarRow (mkRow p ts now1) p ts now3 :: []).filter
      (fun x => x.link == p.link)).length = 1 := by
    rw [List.filter_append]
    have h1 : db.filter (fun x => x.link == p.link) = [] := by
      rw [List.filter_eq_nil_iff]
      intro x hx
      simp [hfresh x hx]
    rw [h1]
    simp [atualizarRow, mkRow]
  exact ⟨hins, hupd, rfl, rfl, rfl, rfl, rfl, rfl, rfl, rfl, rfl, rfl, rfl, rfl, rfl,
    hsegundo, hcount⟩

def parseTsExemplo : String → Option Nat :=
  fun s => if s = "t" then some 5 else none

/-- C1 witness: the theorem applied at a concrete record and empty
database, discharging every hypothesis; the insert case is extracted. -/
theorem salvar_upsert_idempotente_aplicacao :
    salvar_postgres parseTsExemplo 1 [produtoA] (some []) true
      = ({ inseridos := 1, atualizados := 0, erros := 0 }, some ([] ++ [mkRow produtoA 5 1])) :=
  (salvar_upsert_idempotente parseTsExemplo 1 2 3 [] [] [] (mkRow produtoA 5 0) produtoA 5
    (by decide) (by simp) rfl (by simp) (by simp)).1

theorem processar_inserts (parseTs : String → Option Nat) (now : Nat) (tsf : Produto → Nat) :
    ∀ (l : List Produto) (db : List Row),
      (∀ p ∈ l, parseTs p.data_scraping = some (tsf p)) →
      (∀ p ∈ l, ∀ x ∈ db, x.link ≠ p.link) →
      ((l.map fun p => p.link).Nodup) →
      processar parseTs now l db
        = (db ++ l.map (fun p => mkRow p (tsf p) now),
           { inseridos := l.length, atualizados := 0, erros := 0 }) := by
  intro l
  induction l with
  | nil =>
    intro db _ _ _
    simp [processar]
  | cons p ps ih =>
    intro db hok hfresh hnodup
    have hap : aplicar_produto parseTs now db p = some (db ++ [mkRow p (tsf p) now], true) :=
      aplicar_insert (hok p (by simp)) (fun x hx => hfresh p (by simp) x hx)
    simp only [List.map_cons, List.nodup_cons] at hnodup
    have hfresh2 : ∀ q ∈ ps, ∀ x ∈ db ++ [mkRow p (tsf p) now], x.link ≠ q.link := by
      intro q hq x hx
      rcases List.mem_append.mp hx with hx | hx
      · exact hfresh q (by simp [hq]) x hx
      · simp only [List.mem_singleton] at hx
        subst hx
        show p.link ≠ q.link
        intro hlink
        exact hnodup.1 (by rw [hlink]; exact List.mem_map_of_mem _ hq)
    have hrec := ih (db ++ [mkRow p (tsf p) now])
      (fun q hq => hok q (by simp [hq])) hfresh2 hnodup.2
    simp only [processar, hap, hrec]
    simp [List.append_assoc]

theorem processar_com_falha (parseTs : String → Option Nat) (now : Nat)
    (l2 : List Produto) (bad : Produto) (tsf : Produto → Nat)
    (hbad : parseTs bad.data_scraping = none) :
    ∀ (l1 : List Produto) (db : List Row),
      (∀ p ∈ l1 ++ l2, parseTs p.data_scraping = some (tsf p)) →
      (∀ p ∈ l1 ++ l2, ∀ x ∈ db, x.link ≠ p.link) →
      (((l1 ++ l2).map fun p => p.link).Nodup) →
      processar parseTs now (l1 ++ bad :: l2) db
        = (db ++ (l1 ++ l2).map (fun p => mkRow p (tsf p) now),
           { inseridos := (l1 ++ l2).length, atualizados := 0, erros := 1 }) := by
  intro l1
  induction l1 with
  | nil =>
    intro db hok hfresh hnodup
    have hap : aplicar_produto parseTs now db bad = none := by
      unfold aplicar_produto
      rw [hbad]
    have hrec := processar_inserts parseTs now tsf l2 db
      (by simpa using hok) (by simpa using hfresh) (by simpa using hnodup)
    simp only [List.nil_append] at hrec ⊢
    simp only [processar, hap, hrec]
  | cons q l1 ih =>
    intro db hok hfresh hnodup
    have hap : aplicar_produto parseTs now db q = some (db ++ [mkRow q (tsf q) now], true) :=
      aplicar_insert (hok q (by simp)) (fun x hx => hfresh q (by simp) x hx)
    simp only [List.cons_append, List.map_cons, List.nodup_cons] at hnodup
    have hfresh2 : ∀ p ∈ l1 ++ l2, ∀ x ∈ db ++ [mkRow q (tsf q) now], x.link ≠ p.link := by
      intro p hp x hx
      rcases List.mem_append.mp hx with hx | hx
      · exact hfresh p (List.mem_cons_of_mem q hp) x hx
      · simp only [List.mem_singleton] at hx
        subst hx
        show q.link ≠ p.link
        intro hlink
        exact hnodup.1 (by rw [hlink]; exact List.mem_map_of_mem _ hp)
    have hrec := ih (db ++ [mkRow q (tsf q) now])
      (fun p hp => hok p (List.mem_cons_of_mem q hp)) hfresh2 hnodup.2
    show processar parseTs now (q :: (l1 ++ bad :: l2)) db = _
    simp only [processar, hap, hrec]
    simp [List.append_assoc]

/-- C6: a record whose timestamp fails to parse is counted as the single
error and does not abort the batch: in a batch `l1 ++ bad :: l2` over
fresh, pairwise-distinct links, every other record is inserted and
committed and the counts are `inserted = |l1 ++ l2|, updated = 0,
errors = 1` (so 4-0-1 for a 5-record batch with record 3 bad). -/
theorem salvar_isola_erro (parseTs : String → Option Nat) (now : Nat) (db : List Row)
    (l1 l2 : List Produto) (bad : Produto) (tsf : Produto → Nat)
    (hbad : parseTs bad.data_scraping = none)
    (hok : ∀ p ∈ l1 ++ l2, parseTs p.data_scraping = some (tsf p))
    (hfresh : ∀ p ∈ l1 ++ l2, ∀ x ∈ db, x.link ≠ p.link)
    (hnodup : (((l1 ++ l2).map fun p => p.link).Nodup)) :
    salvar_postgres parseTs now (l1 ++ bad :: l2) (some db) true
      = ({ inseridos := (l1 ++ l2).length, atualizados := 0, erros := 1 },
         some (db ++ (l1 ++ l2).map fun p => mkRow p (tsf p) now)) := by
  have hne : l1 ++ bad :: l2 ≠ [] := by
    cases l1 <;> simp
  rw [salvar_nao_vazio parseTs now _ db hne,
    processar_com_falha parseTs now l2 bad tsf hbad l1 db hok hfresh hnodup]

def prodLink (u : String) : Produto :=
  { produtoA with link := u }

def prodBad : Produto :=
  { produtoA with data_scraping := "x" }

/-- C6 witness: the theorem applied to a concrete 5-record batch whose
third record has an unparseable timestamp, on an empty table: the result
is inserted 4, updated 0, errors 1, with the other 4 rows committed. -/
theorem salvar_isola_erro_aplicacao :
    salvar_postgres parseTsExemplo 1
        ([prodLink ("http://loja/1"), prodLink ("http://loja/2")]
          ++ prodBad :: [prodLink ("http://loja/3"), prodLink ("http://loja/4")])
        (some []) true
      = ({ inseridos := 4, atualizados := 0, erros := 1 },
         some (([] : List Row)
           ++ ([prodLink ("http://loja/1"), prodLink ("http://loja/2"),
                prodLink ("http://loja/3"), prodLink ("http://loja/4")]).map
              fun p => mkRow p 5 1)) :=
  salvar_isola_erro parseTsExemplo 1 []
    [prodLink ("http://loja/1"), prodLink ("http://loja/2")]
    [prodLink ("http://loja/3"), prodLink ("http://loja/4")]
    prodBad (fun _ => 5)
    (by decide) (by decide) (by simp) (by decide)

theorem processar_soma (parseTs : String → Option Nat) (now : Nat) :
    ∀ (l : List Produto) (db : List Row),
      (processar parseTs now l db).2.inseridos + (processar parseTs now l db).2.atualizados
        + (processar parseTs now l db).2.erros = l.length := by
  intro l
  induction l with
  | nil =>
    intro db
    rfl
  | cons p ps ih =>
    intro db
    cases hap : aplicar_produto parseTs now db p with
    | none =>
      simp only [processar, hap]
      have h := ih db
      simp only [List.length_cons]
      omega
    | some pr =>
      cases pr with
      | mk db2 flag =>
        cases flag with
        | false =>
          simp only [processar, hap]
          have h := ih db2
          simp only [List.length_cons]
          omega
        | true =>
          simp only [processar, hap]
          have h := ih db2
          simp only [List.length_cons]
          omega

/-- C10: on every return path of the persister (empty batch, unavailable
connection, normal per-record processing, batch-level exception) the
returned counts partition the batch:
inserted + updated + errors = number of input records. -/
theorem salvar_contagem_particiona (parseTs : String → Option Nat) (now : Nat)
    (produtos : List Produto) (conn : Option (List Row)) (commitOk : Bool) :
    (salvar_postgres parseTs now produtos conn commitOk).1.inseridos
      + (salvar_postgres parseTs now produtos conn commitOk).1.atualizados
      + (salvar_postgres parseTs now produtos conn commitOk).1.erros
      = produtos.length := by
  by_cases hp : produtos = []
  · subst hp
    simp [salvar_postgres]
  · unfold salvar_postgres
    rw [if_neg hp]
    cases conn with
    | none => simp
    | some db =>
      cases commitOk with
      | false => simp
      | true =>
        simp only [if_true]
        exact processar_soma parseTs now produtos db
